import Mathlib

/-!
Verification development for the `meatloaf` reflection dumper.

We shallowly embed the typed remote-memory traversal core
(`src/dumper/src/containers.rs`, `src/dumper/src/objects.rs`,
`src/dumper/src/lib.rs`) in Lean:

* a target memory is a partial function from byte addresses to bytes;
* raw reads (`Mem::read_buf` / `Mem::read_vec`) become `mapM` over address
  ranges returning `Option`;
* machine integers are `Nat` (all the arithmetic involved is on
  non-negative indices and little-endian byte recompositions);
* fallible code returns `Option` / `Except Unit`;
* property metadata that the source reads through the layout registry
  (`CtxPtr::struct_member` plumbing, whose implementation lives in
  `mem.rs`/`structs.rs`) is modelled as already-decoded mirror records,
  while all reads of target *data* (CDO bytes, script-array headers,
  name-pool blocks, object-array chunks) stay explicit on the memory.
-/

namespace Meatloaf

/-- A remote address space: partial map from byte address to byte value
(`None` models an unreadable address, i.e. `MemoryReader` failure). -/
def Memory : Type := Nat → Option Nat

/-- `Mem::read_buf`: read `len` consecutive bytes starting at `addr`;
fails (all-or-nothing) iff any byte in the range is unreadable. -/
def readBytes (mem : Memory) : Nat → Nat → Option (List Nat)
  | _, 0 => some []
  | addr, len + 1 => do
    let b ← mem addr
    let rest ← readBytes mem (addr + 1) len
    pure (b :: rest)

/-- Little-endian recombination of a byte list into an unsigned value. -/
def leVal : List Nat → Nat
  | [] => 0
  | b :: bs => b + 256 * leVal bs

/-- Read an `n`-byte little-endian unsigned integer (the target is
little-endian x86-64; `Mem::read::<T>` transmutes raw bytes). -/
def readUN (mem : Memory) (addr n : Nat) : Option Nat :=
  (readBytes mem addr n).map leVal

/-- Read a `u16`. -/
def readU16 (mem : Memory) (addr : Nat) : Option Nat := readUN mem addr 2

/-- Read a `u32`. -/
def readU32 (mem : Memory) (addr : Nat) : Option Nat := readUN mem addr 4

/-- Read a `u64` / `usize` (pointers). -/
def readU64 (mem : Memory) (addr : Nat) : Option Nat := readUN mem addr 8

/-- `Mem::read_vec::<T>`: read `count` elements of `elemSize` bytes each,
laid out contiguously from `addr` (one all-or-nothing `read_buf` of
`count * size` bytes in the source, here chunked per element); each
element is returned as its raw byte list. -/
def memReadVec (mem : Memory) (elemSize : Nat) : Nat → Nat → Option (List (List Nat))
  | _, 0 => some []
  | addr, count + 1 => do
    let e ← readBytes mem addr elemSize
    let rest ← memReadVec mem elemSize (addr + elemSize) count
    pure (e :: rest)

/-! ## `FlaggedPtr` and `TArray` (containers.rs) -/

/-- `FlaggedPtr<T>`: either a pointer into locally held bytes (inline
allocator payload, always host-readable, read as a total function from
element index to element bytes) or a remote `ExternalPtr<T>`. -/
inductive FlaggedPtr where
  | loc (isNull : Bool) (elems : Nat → List Nat)
  | remote (addr : Nat)

/-- `FlaggedPtr::is_null`. -/
def FlaggedPtr.isNull : FlaggedPtr → Bool
  | .loc n _ => n
  | .remote a => a == 0

/-- `FlaggedPtr::read_vec`: the empty vector if the pointer is null
(without consulting the reader), otherwise `count` elements from the
local buffer or from remote memory. -/
def FlaggedPtr.readVec (p : FlaggedPtr) (mem : Memory) (elemSize count : Nat) :
    Option (List (List Nat)) :=
  if p.isNull then some []
  else
    match p with
    | .loc _ elems => some ((List.range count).map elems)
    | .remote a => memReadVec mem elemSize a count

/-- The header of a `TArray<T>` (heap or inline-or-heap allocator already
resolved to its live data pointer, as `TAllocImpl::data` does). -/
structure TArrayRepr where
  data : FlaggedPtr
  num : Nat
  max : Nat

/-- `TArray::read`: `self.data.data().read_vec(mem, self.num as usize)`.
Note the source performs no `num ≤ max` validation whatsoever. -/
def TArrayRepr.read (mem : Memory) (elemSize : Nat) (a : TArrayRepr) :
    Option (List (List Nat)) :=
  a.data.readVec mem elemSize a.num

/-! ## Object-array item lookup (objects.rs, `read_item_ptr`) -/

/-- `FChunkedFixedUObjectArray::read_item_ptr` (objects.rs:300-312),
returning the computed item address: reads the chunk-table pointer at the
array base (`objects()`, byte offset 0), then the chunk pointer at index
`item / 65536` (8-byte pointer stride), then adds the hard-coded 24-byte
item stride (`24 * (item % 65536)`; the source carries a
"TODO dynamic struct size" comment here). -/
def readItemPtrAddr (mem : Memory) (arrAddr i : Nat) : Option Nat := do
  let objectsPtr ← readU64 mem arrAddr
  let chunk ← readU64 mem (objectsPtr + 8 * (i / 65536))
  pure (chunk + 24 * (i % 65536))

/-- Modelled from the spec: the item-address computation as §4.7 step 2 of
the spec prescribes it, with the item stride supplied by the
LayoutRegistry for the detected engine version (the registry lookup
itself lives in `structs.rs`, which is not part of the traversal code
under review; only the stride value it would return is abstracted here as
`stride`). -/
def specItemAddr (stride : Nat) (mem : Memory) (arrAddr i : Nat) : Option Nat := do
  let objectsPtr ← readU64 mem arrAddr
  let chunk ← readU64 mem (objectsPtr + 8 * (i / 65536))
  pure (chunk + stride * (i % 65536))

/-! ## Qualified paths (lib.rs, `read_path`) -/

/-- Cast-flag test: bitflags' `contains` is `f & c == c`. -/
def hasFlag (f c : Nat) : Bool := f &&& c == c

/-- `EClassCastFlags::CASTCLASS_UPackage` (ue_reflection). -/
def CASTCLASS_UPackage : Nat := 0x0000000400000000

/-- The mirror of an engine `UObject` as `read_path` consumes it: the
resolved name string (`name_private().read()` resolves the `FName`
through the name pool), the class pointer (`class_private()`), and the
outer pointer (`outer_private()`, 0 for null). -/
structure ObjRec where
  name : String
  classAddr : Nat
  outerAddr : Nat

/-- An object graph: objects by address, plus the `ClassCastFlags` field
of each `UClass` by class address (both reads go through the layout
registry in the source; here they are the two partial maps). -/
structure ObjGraph where
  objs : Nat → Option ObjRec
  classCast : Nat → Option Nat

/-- The first loop of `read_path`: collect the object followed by its
chain of outers, innermost first (`while let Some(outer) = ... push`).
The Rust loop has no cycle protection; `fuel` bounds the walk and `none`
models both a failed read and a walk that does not reach a root. -/
def outerChain (g : ObjGraph) : Nat → Nat → Option (List Nat)
  | 0, _ => none
  | fuel + 1, a => do
    let o ← g.objs a
    if o.outerAddr = 0 then
      pure [a]
    else do
      let rest ← outerChain g fuel o.outerAddr
      pure (a :: rest)

/-- The second loop of `read_path`, running over the collected chain in
reverse (root first) and tracking `prev`: before every element with a
predecessor, push `'.'` if `prev`'s class' cast flags contain
`CASTCLASS_UPackage`, else `':'`; then push the element's name. -/
def renderGo (g : ObjGraph) (prev : Option Nat) (acc : String) :
    List Nat → Option String
  | [] => some acc
  | a :: rest => do
    let sep ← match prev with
      | none => pure ""
      | some pa => do
        let po ← g.objs pa
        let cf ← g.classCast po.classAddr
        pure (if hasFlag cf CASTCLASS_UPackage then "." else ":")
    let o ← g.objs a
    renderGo g (some a) (acc ++ sep ++ o.name) rest

/-- `read_path` (lib.rs:56-87): walk the outer chain, then render
root-first with per-pair separators. -/
def readPath (g : ObjGraph) (fuel a : Nat) : Option String := do
  let chain ← outerChain g fuel a
  renderGo g none "" chain.reverse

/-- Spec-side rendering (spec §4.7 step 3 / §6 "Qualified path format"):
given the root-first element list, the root's name carries no leading
separator, and each subsequent element is preceded by `'.'` when its
parent (the preceding element) is a package, else `':'`. -/
def specPathGo (g : ObjGraph) (parent : Nat) (acc : String) :
    List Nat → Option String
  | [] => some acc
  | c :: rest => do
    let po ← g.objs parent
    let cf ← g.classCast po.classAddr
    let co ← g.objs c
    specPathGo g c
      (acc ++ (if hasFlag cf CASTCLASS_UPackage then "." else ":") ++ co.name)
      rest

/-- Spec-side qualified path over a root-first element list. -/
def specPath (g : ObjGraph) : List Nat → Option String
  | [] => some ""
  | r :: rest => do
    let ro ← g.objs r
    specPathGo g r ro.name rest

/-- Boolean check that a list is a genuine outer walk: it starts anywhere,
each element's outer is the next element, and the last element is a root
(outer null). -/
def walkOk (g : ObjGraph) : List Nat → Bool
  | [] => false
  | [a] =>
    match g.objs a with
    | some o => o.outerAddr == 0
    | none => false
  | a :: b :: rest =>
    (match g.objs a with
     | some o => o.outerAddr == b
     | none => false) && walkOk g (b :: rest)

/-! ## Name resolution (containers.rs, `PtrFNamePool::read`) -/

/-- Group a byte list into little-endian `u16` code units (the
`chunks(2) ... from_le_bytes` step; the source only ever applies it to
even-length buffers). -/
def u16ChunksLE : List Nat → List Nat
  | b0 :: b1 :: rest => (b0 + 256 * b1) :: u16ChunksLE rest
  | _ => []

/-- An interned name handle `FName`: `(ComparisonIndex.Value, Number)`. -/
structure FNameH where
  comparisonIndex : Nat
  number : Nat

/-- `PtrFNamePool::read` (containers.rs:684-713). `d16`/`d8` stand for
the external library decoders `String::from_utf16` (on code units) and
`String::from_utf8` (on bytes); both may fail. The blocks table is at
`pool + 0x10` as an array of 8-byte pointers; the block index is
`ComparisonIndex >> 16` and the in-block byte offset
`(ComparisonIndex & 0xFFFF) * 2`; a 2-byte little-endian header gives
`len = header >> 6` and `is_wide = header & 1`; the payload starts 2
bytes later. The `Number` field is never consulted. -/
def ptrFNamePoolRead (d16 d8 : List Nat → Option String) (pool : Nat)
    (mem : Memory) (name : FNameH) : Option String := do
  let blockIndex := name.comparisonIndex >>> 16
  let offset := (name.comparisonIndex &&& 0xffff) * 2
  let block ← readU64 mem (pool + 0x10 + 8 * blockIndex)
  let header ← readU16 mem (block + offset)
  let len := header >>> 6
  let isWide := header &&& 1 != 0
  if isWide then do
    let bytes ← readBytes mem (block + offset + 2) (len * 2)
    d16 (u16ChunksLE bytes)
  else do
    let bytes ← readBytes mem (block + offset + 2) len
    d8 bytes

/-- The name-resolution algorithm exactly as spec §4.6 words it, written
with division and remainder for the index decomposition and depending
only on `entry_index` (step "Given `name = (entry_index, _number)`"). -/
def specNameResolve (d16 d8 : List Nat → Option String) (pool : Nat)
    (mem : Memory) (entryIndex : Nat) : Option String := do
  let blockI := entryIndex / 65536
  let byteOff := (entryIndex % 65536) * 2
  let block ← readU64 mem (pool + 16 + 8 * blockI)
  let header ← readU16 mem (block + byteOff)
  let isWide := header % 2 = 1
  let len := header / 64
  if isWide then do
    let bytes ← readBytes mem (block + byteOff + 2) (len * 2)
    d16 (u16ChunksLE bytes)
  else do
    let bytes ← readBytes mem (block + byteOff + 2) len
    d8 bytes

/-! ## Cast flags and property-kind dispatch (lib.rs, `map_prop` /
`read_prop`; constants from ue_reflection's `EClassCastFlags`) -/

def CASTCLASS_FInt8Property : Nat := 0x0000000000000002
def CASTCLASS_FByteProperty : Nat := 0x0000000000000040
def CASTCLASS_FIntProperty : Nat := 0x0000000000000080
def CASTCLASS_FFloatProperty : Nat := 0x0000000000000100
def CASTCLASS_FUInt64Property : Nat := 0x0000000000000200
def CASTCLASS_FClassProperty : Nat := 0x0000000000000400
def CASTCLASS_FUInt32Property : Nat := 0x0000000000000800
def CASTCLASS_FInterfaceProperty : Nat := 0x0000000000001000
def CASTCLASS_FNameProperty : Nat := 0x0000000000002000
def CASTCLASS_FStrProperty : Nat := 0x0000000000004000
def CASTCLASS_FProperty : Nat := 0x0000000000008000
def CASTCLASS_FObjectProperty : Nat := 0x0000000000010000
def CASTCLASS_FBoolProperty : Nat := 0x0000000000020000
def CASTCLASS_FUInt16Property : Nat := 0x0000000000040000
def CASTCLASS_FStructProperty : Nat := 0x0000000000100000
def CASTCLASS_FArrayProperty : Nat := 0x0000000000200000
def CASTCLASS_FInt64Property : Nat := 0x0000000000400000
def CASTCLASS_FDelegateProperty : Nat := 0x0000000000800000
def CASTCLASS_FObjectPropertyBase : Nat := 0x0000000004000000
def CASTCLASS_FWeakObjectProperty : Nat := 0x0000000008000000
def CASTCLASS_FLazyObjectProperty : Nat := 0x0000000010000000
def CASTCLASS_FSoftObjectProperty : Nat := 0x0000000020000000
def CASTCLASS_FTextProperty : Nat := 0x0000000040000000
def CASTCLASS_FInt16Property : Nat := 0x0000000080000000
def CASTCLASS_FDoubleProperty : Nat := 0x0000000100000000
def CASTCLASS_FSoftClassProperty : Nat := 0x0000000200000000
def CASTCLASS_FMapProperty : Nat := 0x0000400000000000
def CASTCLASS_FSetProperty : Nat := 0x0000800000000000
def CASTCLASS_FEnumProperty : Nat := 0x0001000000000000
def CASTCLASS_FMulticastInlineDelegateProperty : Nat := 0x0004000000000000
def CASTCLASS_FMulticastSparseDelegateProperty : Nat := 0x0008000000000000
def CASTCLASS_FFieldPathProperty : Nat := 0x0010000000000000
def CASTCLASS_FOptionalProperty : Nat := 0x0100000000000000

/-- The dispatch arms of the two tag-dispatch tables. -/
inductive PropKind where
  | structK | strK | nameK | textK | mcInlineK | mcSparseK | delegateK
  | boolK | arrayK | enumK | mapK | setK | floatK | doubleK | byteK
  | u16K | u32K | u64K | i8K | i16K | intK | i64K
  | classK | objectK | softClassK | softObjectK
  | weakK | lazyK | interfaceK | fieldPathK | optionalK
deriving DecidableEq

/-- Which arm `map_prop` (lib.rs:89-230) selects for a given cast-flag
set: the if/else-if chain in source order; `none` models the final
`unimplemented!` arm. -/
def mapPropKind (f : Nat) : Option PropKind :=
  if hasFlag f CASTCLASS_FStructProperty then some .structK
  else if hasFlag f CASTCLASS_FStrProperty then some .strK
  else if hasFlag f CASTCLASS_FNameProperty then some .nameK
  else if hasFlag f CASTCLASS_FTextProperty then some .textK
  else if hasFlag f CASTCLASS_FMulticastInlineDelegateProperty then some .mcInlineK
  else if hasFlag f CASTCLASS_FMulticastSparseDelegateProperty then some .mcSparseK
  else if hasFlag f CASTCLASS_FDelegateProperty then some .delegateK
  else if hasFlag f CASTCLASS_FBoolProperty then some .boolK
  else if hasFlag f CASTCLASS_FArrayProperty then some .arrayK
  else if hasFlag f CASTCLASS_FEnumProperty then some .enumK
  else if hasFlag f CASTCLASS_FMapProperty then some .mapK
  else if hasFlag f CASTCLASS_FSetProperty then some .setK
  else if hasFlag f CASTCLASS_FFloatProperty then some .floatK
  else if hasFlag f CASTCLASS_FDoubleProperty then some .doubleK
  else if hasFlag f CASTCLASS_FByteProperty then some .byteK
  else if hasFlag f CASTCLASS_FUInt16Property then some .u16K
  else if hasFlag f CASTCLASS_FUInt32Property then some .u32K
  else if hasFlag f CASTCLASS_FUInt64Property then some .u64K
  else if hasFlag f CASTCLASS_FInt8Property then some .i8K
  else if hasFlag f CASTCLASS_FInt16Property then some .i16K
  else if hasFlag f CASTCLASS_FIntProperty then some .intK
  else if hasFlag f CASTCLASS_FInt64Property then some .i64K
  else if hasFlag f CASTCLASS_FClassProperty then some .classK
  else if hasFlag f CASTCLASS_FObjectProperty then some .objectK
  else if hasFlag f CASTCLASS_FSoftClassProperty then some .softClassK
  else if hasFlag f CASTCLASS_FSoftObjectProperty then some .softObjectK
  else if hasFlag f CASTCLASS_FWeakObjectProperty then some .weakK
  else if hasFlag f CASTCLASS_FLazyObjectProperty then some .lazyK
  else if hasFlag f CASTCLASS_FInterfaceProperty then some .interfaceK
  else if hasFlag f CASTCLASS_FFieldPathProperty then some .fieldPathK
  else if hasFlag f CASTCLASS_FOptionalProperty then some .optionalK
  else none

/-- Which arm the CDO value reader `read_prop` (lib.rs:374-530) selects:
same chain, except that it has no Class / SoftClass arms (a class
property is caught by the Object arm through its inherited
`FObjectProperty` flag); `none` models the final `unimplemented!`. -/
def readPropKind (f : Nat) : Option PropKind :=
  if hasFlag f CASTCLASS_FStructProperty then some .structK
  else if hasFlag f CASTCLASS_FStrProperty then some .strK
  else if hasFlag f CASTCLASS_FNameProperty then some .nameK
  else if hasFlag f CASTCLASS_FTextProperty then some .textK
  else if hasFlag f CASTCLASS_FMulticastInlineDelegateProperty then some .mcInlineK
  else if hasFlag f CASTCLASS_FMulticastSparseDelegateProperty then some .mcSparseK
  else if hasFlag f CASTCLASS_FDelegateProperty then some .delegateK
  else if hasFlag f CASTCLASS_FBoolProperty then some .boolK
  else if hasFlag f CASTCLASS_FArrayProperty then some .arrayK
  else if hasFlag f CASTCLASS_FEnumProperty then some .enumK
  else if hasFlag f CASTCLASS_FMapProperty then some .mapK
  else if hasFlag f CASTCLASS_FSetProperty then some .setK
  else if hasFlag f CASTCLASS_FFloatProperty then some .floatK
  else if hasFlag f CASTCLASS_FDoubleProperty then some .doubleK
  else if hasFlag f CASTCLASS_FByteProperty then some .byteK
  else if hasFlag f CASTCLASS_FUInt16Property then some .u16K
  else if hasFlag f CASTCLASS_FUInt32Property then some .u32K
  else if hasFlag f CASTCLASS_FUInt64Property then some .u64K
  else if hasFlag f CASTCLASS_FInt8Property then some .i8K
  else if hasFlag f CASTCLASS_FInt16Property then some .i16K
  else if hasFlag f CASTCLASS_FIntProperty then some .intK
  else if hasFlag f CASTCLASS_FInt64Property then some .i64K
  else if hasFlag f CASTCLASS_FObjectProperty then some .objectK
  else if hasFlag f CASTCLASS_FWeakObjectProperty then some .weakK
  else if hasFlag f CASTCLASS_FSoftObjectProperty then some .softObjectK
  else if hasFlag f CASTCLASS_FLazyObjectProperty then some .lazyK
  else if hasFlag f CASTCLASS_FInterfaceProperty then some .interfaceK
  else if hasFlag f CASTCLASS_FFieldPathProperty then some .fieldPathK
  else if hasFlag f CASTCLASS_FOptionalProperty then some .optionalK
  else none

/-! ## CDO property values (lib.rs, `read_prop` / `read_props`)

Property *metadata* is read by the source through the layout registry
(`element_size()`, `offset_internal()`, `array_dim()`, bool field bytes,
`inner()`, `underlying_prop()`, `enum_()` names, `struct_()` chain); we
model it as an already-decoded mirror record `PropMeta`.  All reads of
CDO *data* stay explicit on the `Memory`. -/

inductive PropMeta where
  | mk (castFlags elementSize offsetInternal arrayDim : Nat) (name : String)
      (boolByteOffset boolByteMask : Nat)
      (inner : Option PropMeta)
      (underlying : Option PropMeta)
      (enumNames : Option (List (String × Int)))
      (structRef : Option (List PropMeta))

def PropMeta.castFlags : PropMeta → Nat
  | .mk f _ _ _ _ _ _ _ _ _ _ => f

def PropMeta.elementSize : PropMeta → Nat
  | .mk _ s _ _ _ _ _ _ _ _ _ => s

def PropMeta.offsetInternal : PropMeta → Nat
  | .mk _ _ o _ _ _ _ _ _ _ _ => o

def PropMeta.arrayDim : PropMeta → Nat
  | .mk _ _ _ d _ _ _ _ _ _ _ => d

def PropMeta.name : PropMeta → String
  | .mk _ _ _ _ n _ _ _ _ _ _ => n

def PropMeta.boolByteOffset : PropMeta → Nat
  | .mk _ _ _ _ _ b _ _ _ _ _ => b

def PropMeta.boolByteMask : PropMeta → Nat
  | .mk _ _ _ _ _ _ m _ _ _ _ => m

def PropMeta.inner : PropMeta → Option PropMeta
  | .mk _ _ _ _ _ _ _ i _ _ _ => i

def PropMeta.underlying : PropMeta → Option PropMeta
  | .mk _ _ _ _ _ _ _ _ u _ _ => u

def PropMeta.enumNames : PropMeta → Option (List (String × Int))
  | .mk _ _ _ _ _ _ _ _ _ e _ => e

def PropMeta.structRef : PropMeta → Option (List PropMeta)
  | .mk _ _ _ _ _ _ _ _ _ _ s => s

/-- Decoded CDO property values (`PropertyValue` in ue_reflection).
Strings keep their UTF-16 code units and floats their raw bit patterns
(decoding those to host types is external library behaviour). -/
inductive PValue where
  | bool (b : Bool)
  | str (codeUnits : List Nat)
  | name (idx num : Nat)
  | struct (fields : List (String × PValue))
  | array (elems : List PValue)
  | enumName (s : String)
  | enumVal (v : Int)
  | byteName (s : String)
  | byteVal (v : Nat)
  | floatBits (bits : Nat)
  | doubleBits (bits : Nat)
  | u16 (v : Nat)
  | u32 (v : Nat)
  | u64 (v : Nat)
  | i8 (v : Int)
  | i16 (v : Int)
  | i32 (v : Int)
  | i64 (v : Int)
  | object (path : Option String)

/-- Two's-complement reinterpretation of an unsigned `bits`-bit value. -/
def asInt (bits val : Nat) : Int :=
  if val < 2 ^ (bits - 1) then (val : Int) else (val : Int) - 2 ^ bits

/-- `FString` value read in place (`ptr.cast::<FString>().read()`):
`TArray<u16>` header at `p` (data pointer, then `num` at `p + 8`), its
elements, truncated at the first zero code unit. -/
def readFStringUnits (mem : Memory) (p : Nat) : Option (List Nat) := do
  let dataPtr ← readU64 mem p
  let num ← readU32 mem (p + 8)
  let chars ←
    if dataPtr = 0 then pure []
    else (memReadVec mem 2 dataPtr num).map (fun l => l.map leVal)
  pure (chars.takeWhile (fun c => c ≠ 0))

/-- The `match underlying` of the Enum arm: which underlying values the
source converts to `i64` (anything else hits `unimplemented!`). -/
def enumUnderlyingVal : PValue → Option Int
  | .byteVal v => some (v : Int)
  | .i8 v => some v
  | .i16 v => some v
  | .i32 v => some v
  | .u16 v => some (v : Int)
  | .u32 v => some (v : Int)
  | _ => none

/-- The element loops of the value reader (`for i in 0..array_dim` in
`read_props` and `for i in 0..num` in the Array arm), abstracted over the
single-value reader `rp`: stop and make the whole field absent at the
first absent element. -/
def readPropElems (rp : PropMeta → Nat → Nat → Except Unit (Option PValue))
    (prop : PropMeta) (base : Nat) :
    List Nat → Except Unit (Option (List PValue))
  | [] => pure (some [])
  | i :: rest => do
    match ← rp prop base i with
    | none => pure none
    | some v =>
      match ← readPropElems rp prop base rest with
      | none => pure none
      | some vs => pure (some (v :: vs))

/-- The `read_props` per-property loop body, abstracted over the
single-value reader `rp` (which the caller instantiates with `readProp`
at the next fuel level): properties whose reader yields `absent` are
omitted from the output map; `array_dim ≠ 1` reads `array_dim` values
and aborts the whole field on the first absent element. -/
def readPropsGo (rp : PropMeta → Nat → Nat → Except Unit (Option PValue)) :
    List PropMeta → Nat → Except Unit (List (String × PValue))
  | [], _ => pure []
  | prop :: rest, base =>
    if prop.arrayDim = 1 then do
      match ← rp prop base 0 with
      | some v => do
        let r ← readPropsGo rp rest base
        pure ((prop.name, v) :: r)
      | none => readPropsGo rp rest base
    else do
      match ← readPropElems rp prop base (List.range prop.arrayDim) with
      | some elems => do
        let r ← readPropsGo rp rest base
        pure ((prop.name, .array elems) :: r)
      | none => readPropsGo rp rest base

/-- `read_prop` (lib.rs:374-530).  `paths` is the qualified-path
capability used by the Object arm (`e.path()`, failing with `none`);
`fuel` bounds the recursion depth (the source recurses on the target's
pointer graph without protection).  The source's single if/else-if chain
is rendered as the dispatch `readPropKind` followed by the per-arm
actions. -/
def readProp (paths : Nat → Option String) (mem : Memory) :
    Nat → PropMeta → Nat → Nat → Except Unit (Option PValue)
  | 0, _, _, _ => .error ()
  | fuel + 1, prop, base, index =>
    let p := base + prop.offsetInternal + index * prop.elementSize
    match readPropKind prop.castFlags with
    | none => .error ()
    | some .structK =>
      match prop.structRef with
      | none => .error ()
      | some fields => do
        let m ← readPropsGo (readProp paths mem fuel) fields p
        pure (some (.struct m))
    | some .strK =>
      match readFStringUnits mem p with
      | none => .error ()
      | some units => pure (some (.str units))
    | some .nameK =>
      match readU32 mem p, readU32 mem (p + 4) with
      | some i, some n => pure (some (.name i n))
      | _, _ => .error ()
    | some .textK => pure none
    | some .mcInlineK => pure none
    | some .mcSparseK => pure none
    | some .delegateK => pure none
    | some .boolK =>
      match mem (p + prop.boolByteOffset) with
      | none => .error ()
      | some byte => pure (some (.bool (byte &&& prop.boolByteMask != 0)))
    | some .arrayK =>
      match readU32 mem (p + 8) with
      | none => .error ()
      | some num =>
        match readU64 mem p with
        | none => .error ()
        | some dataPtr =>
          if dataPtr = 0 then pure (some (.array []))
          else
            match prop.inner with
            | none => .error ()
            | some innerP => do
              match ← readPropElems (readProp paths mem fuel)
                  innerP dataPtr (List.range num) with
              | none => pure none
              | some vals => pure (some (.array vals))
    | some .enumK =>
      match prop.underlying with
      | none => .error ()
      | some up => do
        match ← readProp paths mem fuel up p 0 with
        | none => .error ()
        | some v =>
          match enumUnderlyingVal v with
          | none => .error ()
          | some value =>
            match prop.enumNames with
            | none => .error ()
            | some names =>
              match names.find? (fun nv => nv.2 == value) with
              | some nv => pure (some (.enumName nv.1))
              | none => pure (some (.enumVal value))
    | some .mapK => pure none
    | some .setK => pure none
    | some .floatK =>
      match readU32 mem p with
      | none => .error ()
      | some bits => pure (some (.floatBits bits))
    | some .doubleK =>
      match readU64 mem p with
      | none => .error ()
      | some bits => pure (some (.doubleBits bits))
    | some .byteK =>
      match mem p with
      | none => .error ()
      | some value =>
        match prop.enumNames with
        | none => pure (some (.byteVal value))
        | some names =>
          match names.find? (fun nv => nv.2 == (value : Int)) with
          | some nv => pure (some (.byteName nv.1))
          | none => pure (some (.byteVal value))
    | some .u16K =>
      match readU16 mem p with
      | none => .error ()
      | some v => pure (some (.u16 v))
    | some .u32K =>
      match readU32 mem p with
      | none => .error ()
      | some v => pure (some (.u32 v))
    | some .u64K =>
      match readU64 mem p with
      | none => .error ()
      | some v => pure (some (.u64 v))
    | some .i8K =>
      match mem p with
      | none => .error ()
      | some v => pure (some (.i8 (asInt 8 v)))
    | some .i16K =>
      match readU16 mem p with
      | none => .error ()
      | some v => pure (some (.i16 (asInt 16 v)))
    | some .intK =>
      match readU32 mem p with
      | none => .error ()
      | some v => pure (some (.i32 (asInt 32 v)))
    | some .i64K =>
      match readU64 mem p with
      | none => .error ()
      | some v => pure (some (.i64 (asInt 64 v)))
    | some .objectK =>
      match readU64 mem p with
      | none => .error ()
      | some a =>
        if a = 0 then pure (some (.object none))
        else
          match paths a with
          | none => .error ()
          | some s => pure (some (.object (some s)))
    | some .weakK => pure none
    | some .softObjectK => pure none
    | some .lazyK => pure none
    | some .interfaceK => pure none
    | some .fieldPathK => pure none
    | some .optionalK => pure none
    | some .classK => .error ()
    | some .softClassK => .error ()

/-- `read_props` entry point over a struct's flattened property chain. -/
def readProps (paths : Nat → Option String) (mem : Memory) (fuel : Nat)
    (props : List PropMeta) (base : Nat) :
    Except Unit (List (String × PValue)) :=
  readPropsGo (readProp paths mem fuel) props base

/-! ## Snapshot assembly (lib.rs, `dump_inner` main loop tail)

The enumeration loop ends with (for every non-null object that passes
the `/Script/` filter): build the typed record, update
`child_map[outer] ∪= {path}` when the outer is set, and
`objects.insert(path, object)`; after the loop, each `child_map` entry is
written into `objects.get_mut(&outer).unwrap().children`.  We model the
emitted stream as a list of `(path, outer)` observations and the two
maps as association lists with `BTreeMap::insert` replace semantics
(`ainsert`); the `.unwrap()` panic becomes `none`. -/

/-- One emitted object: its qualified path and its outer's path. -/
structure EmitItem where
  path : String
  outer : Option String
deriving DecidableEq

/-- One snapshot entry, reduced to the fields the invariants mention. -/
structure Entry where
  outer : Option String
  children : List String
deriving DecidableEq

/-- Association-list lookup. -/
def alookup {α : Type} : List (String × α) → String → Option α
  | [], _ => none
  | (k', v) :: r, k => if k' = k then some v else alookup r k

/-- Association-list insert with replace-on-existing-key semantics
(`BTreeMap::insert` / `HashMap::entry`). -/
def ainsert {α : Type} : List (String × α) → String → α → List (String × α)
  | [], k, v => [(k, v)]
  | (k', v') :: r, k, v =>
    if k' = k then (k, v) :: r else (k', v') :: ainsert r k v

/-- Ordered set insert for a `children` set. -/
def insertSet (p : String) (l : List String) : List String :=
  if p ∈ l then l else l ++ [p]

/-- `child_map.entry(outer).or_default().insert(path)`. -/
def addChild (cm : List (String × List String)) (o p : String) :
    List (String × List String) :=
  ainsert cm o (insertSet p ((alookup cm o).getD []))

/-- The emission loop: fold the emitted stream into the `objects` map
(entries start with empty `children`) and the `child_map`. -/
def emitLoop (objs : List (String × Entry)) (cm : List (String × List String)) :
    List EmitItem → List (String × Entry) × List (String × List String)
  | [] => (objs, cm)
  | it :: rest =>
    let cm' :=
      match it.outer with
      | some o => addChild cm o it.path
      | none => cm
    emitLoop (ainsert objs it.path ⟨it.outer, []⟩) cm' rest

/-- The post-loop `for (outer, children) in child_map` writing each
children set through `objects.get_mut(&outer).unwrap()`; a missing outer
entry is the `.unwrap()` panic (`none`). -/
def assignChildren (objs : List (String × Entry)) :
    List (String × List String) → Option (List (String × Entry))
  | [] => some objs
  | (o, ch) :: rest =>
    match alookup objs o with
    | none => none
    | some e => assignChildren (ainsert objs o ⟨e.outer, ch⟩) rest

/-- The snapshot-assembly tail of `dump_inner` over an emitted stream. -/
def dumpAssemble (items : List EmitItem) : Option (List (String × Entry)) :=
  let (objs, cm) := emitLoop [] [] items
  assignChildren objs cm

/-! ## Page cache (containers.rs, `MemCache::read_buf`) -/

/-- The cache's page store: page base address → 4096 cached bytes. -/
abbrev PageMap : Type := List (Nat × List Nat)

/-- Page-map lookup. -/
def plookup : PageMap → Nat → Option (List Nat)
  | [], _ => none
  | (k', v) :: r, k => if k' = k then some v else plookup r k

/-- Page-map insert (`HashMap::insert`). -/
def pinsert : PageMap → Nat → List Nat → PageMap
  | [], k, v => [(k, v)]
  | (k', v') :: r, k, v =>
    if k' = k then (k, v) :: r else (k', v') :: pinsert r k v

/-- `PAGE_SIZE` (containers.rs:744). -/
def PAGE_SIZE : Nat := 0x1000

/-- The raw reader's behaviour on a range (`Mem::read_buf` of the
underlying reader): all-or-nothing bytes. -/
def rawReadBuf (mem : Memory) (addr len : Nat) : Option (List Nat) :=
  readBytes mem addr len

/-- The `while remaining > 0` loop of `MemCache::read_buf`
(containers.rs:757-786): split the request at page boundaries
(`page_start = pos & !(PAGE_SIZE-1)`, here written `pos / 4096 * 4096`);
serve a hit from the stored page, otherwise fetch the whole 4096-byte
page from the inner reader (a failed fetch propagates and is not
cached), store it, and copy the in-page slice.  `fuel` is loop
bookkeeping only: every iteration copies at least one byte, so
`fuel = len` suffices. -/
def cacheReadAux (mem : Memory) :
    Nat → PageMap → Nat → Nat → Option (List Nat × PageMap)
  | _, pages, _, 0 => some ([], pages)
  | 0, _, _, _ + 1 => none
  | fuel + 1, pages, pos, rem + 1 =>
    let pageStart := pos / PAGE_SIZE * PAGE_SIZE
    let pageOff := pos - pageStart
    let toCopy := min (rem + 1) (PAGE_SIZE - pageOff)
    match plookup pages pageStart with
    | some page => do
      let (restBytes, pages') ←
        cacheReadAux mem fuel pages (pos + toCopy) (rem + 1 - toCopy)
      pure (((page.drop pageOff).take toCopy) ++ restBytes, pages')
    | none => do
      let page ← rawReadBuf mem pageStart PAGE_SIZE
      let (restBytes, pages') ←
        cacheReadAux mem fuel (pinsert pages pageStart page) (pos + toCopy)
          (rem + 1 - toCopy)
      pure (((page.drop pageOff).take toCopy) ++ restBytes, pages')

/-- `MemCache::read_buf`: run the loop with sufficient fuel. -/
def cacheReadBuf (mem : Memory) (pages : PageMap) (addr len : Nat) :
    Option (List Nat × PageMap) :=
  cacheReadAux mem len pages addr len

/-- A cache state is coherent with the target when every stored page
holds exactly the bytes the raw reader yields for it (guaranteed by
construction for a deterministic reader; the empty cache is trivially
coherent). -/
def coherent (mem : Memory) (pages : PageMap) : Prop :=
  ∀ p data, plookup pages p = some data → rawReadBuf mem p PAGE_SIZE = some data

/-! ## Concrete targets used to instantiate the theorems -/

/-- A tiny target, readable on bytes 0–7 only, with byte value = address. -/
def memLow : Memory := fun a => if a < 8 then some a else none

/-- A target holding an object-array chunk table: the chunk-table pointer
(value 64) at address 0, and chunk pointer 4096 at address 64. -/
def memChunk : Memory := fun a =>
  if a < 8 then some (if a = 0 then 64 else 0)
  else if 64 ≤ a ∧ a < 72 then some (if a = 65 then 16 else 0)
  else none

/-- A three-object graph: package `/Script/Engine` (address 1, class 10),
class `Actor` (address 2, class 11, outer 1), and `RootComponent`
(address 3, class 12, outer 2); class 10 carries the `UPackage` cast
flag. -/
def pathGraph : ObjGraph where
  objs := fun a =>
    if a = 1 then some ⟨"/Script/Engine", 10, 0⟩
    else if a = 2 then some ⟨"Actor", 11, 1⟩
    else if a = 3 then some ⟨"RootComponent", 12, 2⟩
    else none
  classCast := fun c =>
    if c = 10 then some CASTCLASS_UPackage
    else if c = 11 then some 0x20
    else if c = 12 then some 0
    else none

/-- A text property (`array_dim = 1`). -/
def textProp : PropMeta :=
  .mk CASTCLASS_FTextProperty 24 4 1 "TextField" 0 0 none none none none

/-- An int property used as an array inner. -/
def intInnerProp : PropMeta :=
  .mk CASTCLASS_FIntProperty 4 0 1 "Inner" 0 0 none none none none

/-- An array property whose in-CDO script-array data pointer will be
read from the target. -/
def arrProp : PropMeta :=
  .mk CASTCLASS_FArrayProperty 16 0 1 "Arr" 0 0 (some intInnerProp) none none none

/-- A target whose script-array header at address 0 has a null data
pointer and `num = 5`. -/
def memScript : Memory := fun a =>
  if a < 8 then some 0
  else if a = 8 then some 5
  else if a < 12 then some 0
  else none

/-- A fully readable target (every byte reads 3). -/
def memTotal : Memory := fun _ => some 3

/-- A target readable on bytes 0–3 only (value 7): the raw reader can
serve a 4-byte request at 0, but no full 4096-byte page is readable. -/
def memPart : Memory := fun a => if a < 4 then some 7 else none

/-- Two distinct enumerated objects (array slots 0 and 1) that emit the
same qualified path. -/
def dupItems : List EmitItem :=
  [⟨"/Script/A", none⟩, ⟨"/Script/A", none⟩]

/-- A package and one class inside it. -/
def pkgItems : List EmitItem :=
  [⟨"/Script/X", none⟩, ⟨"/Script/X.C", some "/Script/X"⟩]

/-- Canonical cast-flag set of an engine class property: the concrete
kind flag plus all its base-category flags
(`FClassProperty ⊂ FObjectProperty ⊂ FObjectPropertyBase ⊂ FProperty`). -/
def classPropFlags : Nat :=
  CASTCLASS_FProperty ||| CASTCLASS_FObjectPropertyBase |||
    CASTCLASS_FObjectProperty ||| CASTCLASS_FClassProperty

/-- Canonical cast-flag set of an engine soft-class property. -/
def softClassPropFlags : Nat :=
  CASTCLASS_FProperty ||| CASTCLASS_FObjectPropertyBase |||
    CASTCLASS_FSoftObjectProperty ||| CASTCLASS_FSoftClassProperty

/-! ## Shared helper lemmas -/

theorem memReadVec_length (mem : Memory) (es : Nat) :
    ∀ (c addr : Nat) (l : List (List Nat)),
      memReadVec mem es addr c = some l → l.length = c := by
  intro c
  induction c with
  | zero =>
    intro addr l h
    simp [memReadVec] at h
    simp [← h]
  | succ n ih =>
    intro addr l h
    simp only [memReadVec, bind, Option.bind] at h
    cases he : readBytes mem addr es with
    | none => rw [he] at h; cases h
    | some e =>
      rw [he] at h
      cases hr : memReadVec mem es (addr + es) n with
      | none => rw [hr] at h; cases h
      | some rest =>
        rw [hr] at h
        simp only [pure, Option.some.injEq] at h
        subst h
        simp [ih (addr + es) rest hr]

/-! ## Claim theorems -/

/-- C1, counterexample: a header with `num = 2 > 1 = max` is read without
any validation — `TArray::read` returns the two elements instead of
failing with a `DecodeError`. -/
theorem tarrayRead_num_gt_max_succeeds :
    TArrayRepr.read memLow 1 ⟨.remote 2, 2, 1⟩ = some [[2], [3]] ∧ 1 < 2 := by
  decide

/-- C1, amended: `TArray::read` performs no `num ≤ max` validation at
all — its result is independent of `max`; `num = 0` yields the empty
vector; and a successful read through a non-null data pointer returns
exactly `num` elements. -/
theorem tarrayRead_no_num_max_validation :
    ∀ (mem : Memory) (es : Nat) (d : FlaggedPtr) (n m₁ m₂ : Nat),
      TArrayRepr.read mem es ⟨d, n, m₁⟩ = TArrayRepr.read mem es ⟨d, n, m₂⟩
      ∧ TArrayRepr.read mem es ⟨d, 0, m₁⟩ = some []
      ∧ (∀ bs, TArrayRepr.read mem es ⟨d, n, m₁⟩ = some bs →
          d.isNull = false → bs.length = n) := by
  intro mem es d n m₁ m₂
  refine ⟨rfl, ?_, ?_⟩
  · unfold TArrayRepr.read FlaggedPtr.readVec
    cases d with
    | loc b elems => cases b <;> simp
    | remote a =>
      by_cases h : a = 0
      · simp [FlaggedPtr.isNull, h]
      · simp [FlaggedPtr.isNull, h, memReadVec]
  · intro bs h hnull
    unfold TArrayRepr.read FlaggedPtr.readVec at h
    rw [hnull] at h
    simp only [Bool.false_eq_true, if_false] at h
    cases d with
    | loc b elems =>
      simp only [Option.some.injEq] at h
      simp [← h]
    | remote a => exact memReadVec_length mem es n a bs h

/-- C1, witness for the amended theorem at a concrete header. -/
theorem tarrayRead_no_num_max_validation_witness :
    ([[2], [3]] : List (List Nat)).length = 2 :=
  (tarrayRead_no_num_max_validation memLow 1 (.remote 2) 2 1 5).2.2
    [[2], [3]] (by decide) (by decide)

/-- C2: `read_item_ptr` resolves the chunk as `objects_ptr[i / 65536]`
but then applies the hard-coded 24-byte item stride
(`chunk + 24 * (i % 65536)`, source comment "TODO dynamic struct size"),
not a stride obtained from the LayoutRegistry: on a target whose
registry stride is 32, the code computes `chunk + 24` for item 1 where
the spec-modelled lookup computes `chunk + 32`. -/
theorem readItemPtr_stride_hardcoded :
    readItemPtrAddr memChunk 0 1 = some 4120
    ∧ specItemAddr 32 memChunk 0 1 = some 4128
    ∧ (4120 : Nat) ≠ 4128 := by
  decide

/-- C5, counterexample: a cast-flag set containing both the Class and
Object flags (plus the Struct flag, which the chain tests first) is
dispatched to the Struct arm, not the Class arm — the literal claim
"for every property whose cast flags contain both the Class and Object
flags the Class arm is chosen" fails. -/
theorem mapProp_class_literal_cex :
    hasFlag (CASTCLASS_FStructProperty ||| CASTCLASS_FClassProperty |||
        CASTCLASS_FObjectProperty) CASTCLASS_FClassProperty = true
    ∧ hasFlag (CASTCLASS_FStructProperty ||| CASTCLASS_FClassProperty |||
        CASTCLASS_FObjectProperty) CASTCLASS_FObjectProperty = true
    ∧ mapPropKind (CASTCLASS_FStructProperty ||| CASTCLASS_FClassProperty |||
        CASTCLASS_FObjectProperty) = some .structK
    ∧ some PropKind.structK ≠ some PropKind.classK := by
  decide

/-- C5, amended: the mapper is a pure function (identical inputs give
identical outputs); the chain tests Class before Object and SoftClass
before SoftObject, so a flag set containing the Class (resp. SoftClass)
flag never resolves to the Object (resp. SoftObject) arm; and on the
canonical class-property and soft-class-property flag sets — which
contain both the specific and the general flag and no earlier-tested
flag — the Class (resp. SoftClass) arm is chosen. -/
theorem mapProp_dispatch_priority :
    (∀ f g : Nat, f = g → mapPropKind f = mapPropKind g)
    ∧ (∀ f : Nat, hasFlag f CASTCLASS_FClassProperty = true →
        mapPropKind f ≠ some .objectK)
    ∧ (∀ f : Nat, hasFlag f CASTCLASS_FSoftClassProperty = true →
        mapPropKind f ≠ some .softObjectK)
    ∧ mapPropKind classPropFlags = some .classK
    ∧ mapPropKind softClassPropFlags = some .softClassK := by
  refine ⟨fun f g h => h ▸ rfl, ?_, ?_, by decide, by decide⟩
  · intro f h hcon
    unfold mapPropKind at hcon
    by_cases c1 : hasFlag f CASTCLASS_FStructProperty = true
    · rw [if_pos c1] at hcon; simp at hcon
    rw [if_neg c1] at hcon
    by_cases c2 : hasFlag f CASTCLASS_FStrProperty = true
    · rw [if_pos c2] at hcon; simp at hcon
    rw [if_neg c2] at hcon
    by_cases c3 : hasFlag f CASTCLASS_FNameProperty = true
    · rw [if_pos c3] at hcon; simp at hcon
    rw [if_neg c3] at hcon
    by_cases c4 : hasFlag f CASTCLASS_FTextProperty = true
    · rw [if_pos c4] at hcon; simp at hcon
    rw [if_neg c4] at hcon
    by_cases c5 : hasFlag f CASTCLASS_FMulticastInlineDelegateProperty = true
    · rw [if_pos c5] at hcon; simp at hcon
    rw [if_neg c5] at hcon
    by_cases c6 : hasFlag f CASTCLASS_FMulticastSparseDelegateProperty = true
    · rw [if_pos c6] at hcon; simp at hcon
    rw [if_neg c6] at hcon
    by_cases c7 : hasFlag f CASTCLASS_FDelegateProperty = true
    · rw [if_pos c7] at hcon; simp at hcon
    rw [if_neg c7] at hcon
    by_cases c8 : hasFlag f CASTCLASS_FBoolProperty = true
    · rw [if_pos c8] at hcon; simp at hcon
    rw [if_neg c8] at hcon
    by_cases c9 : hasFlag f CASTCLASS_FArrayProperty = true
    · rw [if_pos c9] at hcon; simp at hcon
    rw [if_neg c9] at hcon
    by_cases c10 : hasFlag f CASTCLASS_FEnumProperty = true
    · rw [if_pos c10] at hcon; simp at hcon
    rw [if_neg c10] at hcon
    by_cases c11 : hasFlag f CASTCLASS_FMapProperty = true
    · rw [if_pos c11] at hcon; simp at hcon
    rw [if_neg c11] at hcon
    by_cases c12 : hasFlag f CASTCLASS_FSetProperty = true
    · rw [if_pos c12] at hcon; simp at hcon
    rw [if_neg c12] at hcon
    by_cases c13 : hasFlag f CASTCLASS_FFloatProperty = true
    · rw [if_pos c13] at hcon; simp at hcon
    rw [if_neg c13] at hcon
    by_cases c14 : hasFlag f CASTCLASS_FDoubleProperty = true
    · rw [if_pos c14] at hcon; simp at hcon
    rw [if_neg c14] at hcon
    by_cases c15 : hasFlag f CASTCLASS_FByteProperty = true
    · rw [if_pos c15] at hcon; simp at hcon
    rw [if_neg c15] at hcon
    by_cases c16 : hasFlag f CASTCLASS_FUInt16Property = true
    · rw [if_pos c16] at hcon; simp at hcon
    rw [if_neg c16] at hcon
    by_cases c17 : hasFlag f CASTCLASS_FUInt32Property = true
    · rw [if_pos c17] at hcon; simp at hcon
    rw [if_neg c17] at hcon
    by_cases c18 : hasFlag f CASTCLASS_FUInt64Property = true
    · rw [if_pos c18] at hcon; simp at hcon
    rw [if_neg c18] at hcon
    by_cases c19 : hasFlag f CASTCLASS_FInt8Property = true
    · rw [if_pos c19] at hcon; simp at hcon
    rw [if_neg c19] at hcon
    by_cases c20 : hasFlag f CASTCLASS_FInt16Property = true
    · rw [if_pos c20] at hcon; simp at hcon
    rw [if_neg c20] at hcon
    by_cases c21 : hasFlag f CASTCLASS_FIntProperty = true
    · rw [if_pos c21] at hcon; simp at hcon
    rw [if_neg c21] at hcon
    by_cases c22 : hasFlag f CASTCLASS_FInt64Property = true
    · rw [if_pos c22] at hcon; simp at hcon
    rw [if_neg c22] at hcon
    rw [if_pos h] at hcon
    simp at hcon
  · intro f h hcon
    unfold mapPropKind at hcon
    by_cases c1 : hasFlag f CASTCLASS_FStructProperty = true
    · rw [if_pos c1] at hcon; simp at hcon
    rw [if_neg c1] at hcon
    by_cases c2 : hasFlag f CASTCLASS_FStrProperty = true
    · rw [if_pos c2] at hcon; simp at hcon
    rw [if_neg c2] at hcon
    by_cases c3 : hasFlag f CASTCLASS_FNameProperty = true
    · rw [if_pos c3] at hcon; simp at hcon
    rw [if_neg c3] at hcon
    by_cases c4 : hasFlag f CASTCLASS_FTextProperty = true
    · rw [if_pos c4] at hcon; simp at hcon
    rw [if_neg c4] at hcon
    by_cases c5 : hasFlag f CASTCLASS_FMulticastInlineDelegateProperty = true
    · rw [if_pos c5] at hcon; simp at hcon
    rw [if_neg c5] at hcon
    by_cases c6 : hasFlag f CASTCLASS_FMulticastSparseDelegateProperty = true
    · rw [if_pos c6] at hcon; simp at hcon
    rw [if_neg c6] at hcon
    by_cases c7 : hasFlag f CASTCLASS_FDelegateProperty = true
    · rw [if_pos c7] at hcon; simp at hcon
    rw [if_neg c7] at hcon
    by_cases c8 : hasFlag f CASTCLASS_FBoolProperty = true
    · rw [if_pos c8] at hcon; simp at hcon
    rw [if_neg c8] at hcon
    by_cases c9 : hasFlag f CASTCLASS_FArrayProperty = true
    · rw [if_pos c9] at hcon; simp at hcon
    rw [if_neg c9] at hcon
    by_cases c10 : hasFlag f CASTCLASS_FEnumProperty = true
    · rw [if_pos c10] at hcon; simp at hcon
    rw [if_neg c10] at hcon
    by_cases c11 : hasFlag f CASTCLASS_FMapProperty = true
    · rw [if_pos c11] at hcon; simp at hcon
    rw [if_neg c11] at hcon
    by_cases c12 : hasFlag f CASTCLASS_FSetProperty = true
    · rw [if_pos c12] at hcon; simp at hcon
    rw [if_neg c12] at hcon
    by_cases c13 : hasFlag f CASTCLASS_FFloatProperty = true
    · rw [if_pos c13] at hcon; simp at hcon
    rw [if_neg c13] at hcon
    by_cases c14 : hasFlag f CASTCLASS_FDoubleProperty = true
    · rw [if_pos c14] at hcon; simp at hcon
    rw [if_neg c14] at hcon
    by_cases c15 : hasFlag f CASTCLASS_FByteProperty = true
    · rw [if_pos c15] at hcon; simp at hcon
    rw [if_neg c15] at hcon
    by_cases c16 : hasFlag f CASTCLASS_FUInt16Property = true
    · rw [if_pos c16] at hcon; simp at hcon
    rw [if_neg c16] at hcon
    by_cases c17 : hasFlag f CASTCLASS_FUInt32Property = true
    · rw [if_pos c17] at hcon; simp at hcon
    rw [if_neg c17] at hcon
    by_cases c18 : hasFlag f CASTCLASS_FUInt64Property = true
    · rw [if_pos c18] at hcon; simp at hcon
    rw [if_neg c18] at hcon
    by_cases c19 : hasFlag f CASTCLASS_FInt8Property = true
    · rw [if_pos c19] at hcon; simp at hcon
    rw [if_neg c19] at hcon
    by_cases c20 : hasFlag f CASTCLASS_FInt16Property = true
    · rw [if_pos c20] at hcon; simp at hcon
    rw [if_neg c20] at hcon
    by_cases c21 : hasFlag f CASTCLASS_FIntProperty = true
    · rw [if_pos c21] at hcon; simp at hcon
    rw [if_neg c21] at hcon
    by_cases c22 : hasFlag f CASTCLASS_FInt64Property = true
    · rw [if_pos c22] at hcon; simp at hcon
    rw [if_neg c22] at hcon
    by_cases c23 : hasFlag f CASTCLASS_FClassProperty = true
    · rw [if_pos c23] at hcon; simp at hcon
    rw [if_neg c23] at hcon
    by_cases c24 : hasFlag f CASTCLASS_FObjectProperty = true
    · rw [if_pos c24] at hcon; simp at hcon
    rw [if_neg c24] at hcon
    rw [if_pos h] at hcon
    simp at hcon

/-- C5, witness: the amended theorem applied at the canonical flag sets. -/
theorem mapProp_dispatch_priority_witness :
    mapPropKind classPropFlags ≠ some PropKind.objectK
    ∧ mapPropKind softClassPropFlags ≠ some PropKind.softObjectK
    ∧ mapPropKind 5 = mapPropKind 5 :=
  ⟨mapProp_dispatch_priority.2.1 classPropFlags (by decide),
   mapProp_dispatch_priority.2.2.1 softClassPropFlags (by decide),
   mapProp_dispatch_priority.1 5 5 rfl⟩

/-- C4: name resolution follows exactly the spec's algorithm — blocks
table at pool base + 0x10, block `entry_index >> 16`, 2-byte header at
offset `(entry_index & 0xFFFF) * 2`, `len = header >> 6`,
`wide = header & 1`, payload 2 bytes past the header decoded as UTF-16LE
code units (`len * 2` bytes) when wide and as UTF-8 (`len` bytes)
otherwise — and the result is independent of the 32-bit `number`
suffix. -/
theorem fnamePool_read_matches_spec_and_ignores_number :
    ∀ (d16 d8 : List Nat → Option String) (pool : Nat) (mem : Memory)
      (ci n₁ n₂ : Nat),
      ptrFNamePoolRead d16 d8 pool mem ⟨ci, n₁⟩ = specNameResolve d16 d8 pool mem ci
      ∧ ptrFNamePoolRead d16 d8 pool mem ⟨ci, n₁⟩ =
          ptrFNamePoolRead d16 d8 pool mem ⟨ci, n₂⟩ := by
  have key : ∀ (d16 d8 : List Nat → Option String) (pool : Nat) (mem : Memory)
      (ci n : Nat),
      ptrFNamePoolRead d16 d8 pool mem ⟨ci, n⟩ = specNameResolve d16 d8 pool mem ci := by
    intro d16 d8 pool mem ci n
    unfold ptrFNamePoolRead specNameResolve
    have h16 : ci >>> 16 = ci / 65536 := by
      rw [Nat.shiftRight_eq_div_pow]
    have hmask : ci &&& 0xffff = ci % 65536 := by
      have h := Nat.and_pow_two_sub_one_eq_mod ci 16
      norm_num at h
      exact h
    rw [h16, hmask]
    simp only [bind]
    cases hblock : readU64 mem (pool + 16 + 8 * (ci / 65536)) with
    | none => rfl
    | some block =>
      simp only [Option.bind]
      cases hheader : readU16 mem (block + ci % 65536 * 2) with
      | none => rfl
      | some header =>
        have hlen : header >>> 6 = header / 64 := by
          rw [Nat.shiftRight_eq_div_pow]
        rcases Nat.mod_two_eq_zero_or_one header with h2 | h2 <;>
          simp [hlen, Nat.and_one_is_mod, h2]
  intro d16 d8 pool mem ci n₁ n₂
  exact ⟨key d16 d8 pool mem ci n₁,
    (key d16 d8 pool mem ci n₁).trans (key d16 d8 pool mem ci n₂).symm⟩

theorem renderGo_eq_specPathGo (g : ObjGraph) :
    ∀ (l : List Nat) (pa : Nat) (acc : String),
      renderGo g (some pa) acc l = specPathGo g pa acc l := by
  intro l
  induction l with
  | nil => intro pa acc; rfl
  | cons a rest ih =>
    intro pa acc
    cases hpo : g.objs pa with
    | none => simp [renderGo, specPathGo, bind, hpo]
    | some po =>
      cases hcf : g.classCast po.classAddr with
      | none => simp [renderGo, specPathGo, bind, hpo, hcf]
      | some cf =>
        cases hoa : g.objs a with
        | none => simp [renderGo, specPathGo, bind, hpo, hcf, hoa]
        | some o =>
          simp only [renderGo, specPathGo, bind, hpo, hcf, hoa, Option.some_bind,
            pure]
          exact ih a _

theorem outerChain_props (g : ObjGraph) :
    ∀ (fuel a : Nat) (chain : List Nat), outerChain g fuel a = some chain →
      chain.head? = some a ∧ walkOk g chain = true := by
  intro fuel
  induction fuel with
  | zero => intro a chain h; cases h
  | succ n ih =>
    intro a chain h
    unfold outerChain at h
    cases ho : g.objs a with
    | none => rw [ho] at h; cases h
    | some o =>
      rw [ho] at h
      simp only [bind, Option.bind] at h
      by_cases hz : o.outerAddr = 0
      · rw [if_pos hz] at h
        simp only [pure, Option.some.injEq] at h
        subst h
        refine ⟨rfl, ?_⟩
        simp [walkOk, ho, hz]
      · rw [if_neg hz] at h
        cases hr : outerChain g n o.outerAddr with
        | none => rw [hr] at h; cases h
        | some rest =>
          rw [hr] at h
          simp only [pure, Option.some.injEq] at h
          subst h
          obtain ⟨hh, hw⟩ := ih o.outerAddr rest hr
          refine ⟨rfl, ?_⟩
          cases rest with
          | nil => cases hh
          | cons b rest2 =>
            simp only [List.head?, Option.some.injEq] at hh
            subst hh
            simp [walkOk, ho, hw]

/-- C3: `read_path` walks `outer_ptr` to the root and renders names
root-first with exactly the spec's separator rule — `'.'` before an
element iff its parent (the preceding, outer element) is a package, else
`':'`, and no leading separator on the root: on every collected outer
chain the code's reversed-iteration rendering equals the spec-side
root-first rendering, the chain starts at the object itself, and each
element's outer is the next element with the last being a root. -/
theorem readPath_root_first_separators :
    ∀ (g : ObjGraph) (fuel a : Nat) (chain : List Nat),
      outerChain g fuel a = some chain →
      readPath g fuel a = specPath g chain.reverse
      ∧ chain.head? = some a
      ∧ walkOk g chain = true := by
  intro g fuel a chain h
  obtain ⟨hh, hw⟩ := outerChain_props g fuel a chain h
  refine ⟨?_, hh, hw⟩
  unfold readPath
  rw [h]
  show renderGo g none "" chain.reverse = specPath g chain.reverse
  cases hl : chain.reverse with
  | nil => rfl
  | cons r rest =>
    simp only [renderGo, specPath, bind]
    cases ho : g.objs r with
    | none => rfl
    | some ro =>
      show renderGo g (some r) ("" ++ "" ++ ro.name) rest = specPathGo g r ro.name rest
      have hacc : ("" ++ "" ++ ro.name) = ro.name := rfl
      rw [hacc, renderGo_eq_specPathGo]

/-- C3, witness: the three-object chain `/Script/Engine` → `Actor` →
`RootComponent`. -/
theorem readPath_root_first_separators_witness :
    (readPath pathGraph 3 3 = specPath pathGraph ([3, 2, 1] : List Nat).reverse
      ∧ ([3, 2, 1] : List Nat).head? = some 3
      ∧ walkOk pathGraph [3, 2, 1] = true)
    ∧ readPath pathGraph 3 3 = some "/Script/Engine.Actor:RootComponent" :=
  ⟨readPath_root_first_separators pathGraph 3 3 [3, 2, 1] (by decide), by decide⟩

/-- C6: for every property whose dispatched cast-flag kind is Text,
Delegate, MulticastInlineDelegate, MulticastSparseDelegate, Map, Set,
SoftObject, WeakObject, LazyObject, Interface, FieldPath or Optional,
the CDO value reader returns absent (`Ok(None)`), not an error, and
`read_props` omits the field from the emitted property values. -/
theorem readProp_unsupported_absent :
    ∀ (paths : Nat → Option String) (mem : Memory) (fuel : Nat)
      (prop : PropMeta) (base index : Nat) (k : PropKind),
      readPropKind prop.castFlags = some k →
      (k = .textK ∨ k = .mcInlineK ∨ k = .mcSparseK ∨ k = .delegateK ∨
        k = .mapK ∨ k = .setK ∨ k = .softObjectK ∨ k = .weakK ∨
        k = .lazyK ∨ k = .interfaceK ∨ k = .fieldPathK ∨ k = .optionalK) →
      readProp paths mem (fuel + 1) prop base index = .ok none
      ∧ (1 ≤ prop.arrayDim →
          readProps paths mem (fuel + 1) [prop] base = .ok []) := by
  intro paths mem fuel prop base index k hk hkind
  have habs : ∀ idx, readProp paths mem (fuel + 1) prop base idx = .ok none := by
    intro idx
    rcases hkind with rfl | rfl | rfl | rfl | rfl | rfl | rfl | rfl | rfl |
      rfl | rfl | rfl <;>
      · unfold readProp
        rw [hk]
        rfl
  refine ⟨habs index, ?_⟩
  intro hdim
  unfold readProps readPropsGo
  by_cases h1 : prop.arrayDim = 1
  · rw [if_pos h1]
    simp only [habs 0, readPropsGo]
    rfl
  · rw [if_neg h1]
    obtain ⟨d, hd⟩ : ∃ d, prop.arrayDim = d + 1 := ⟨prop.arrayDim - 1, by omega⟩
    rw [hd, List.range_succ_eq_map]
    simp only [readPropElems, habs 0]
    rfl

/-- C6, witness: a text property is skipped without error. -/
theorem readProp_unsupported_absent_witness :
    readProp (fun _ => none) (fun _ => none) 1 textProp 4 0 = .ok none
    ∧ readProps (fun _ => none) (fun _ => none) 1 [textProp] 4 = .ok [] :=
  ⟨(readProp_unsupported_absent (fun _ => none) (fun _ => none) 0 textProp 4 0
      .textK (by decide) (by decide)).1,
   (readProp_unsupported_absent (fun _ => none) (fun _ => none) 0 textProp 4 0
      .textK (by decide) (by decide)).2 (by decide)⟩

/-- C10: `FlaggedPtr::read_vec` through a null pointer returns the empty
vector for every element count, without any reader call (in particular
even under the reader that fails on every address); consequently the
Array value arm decodes a script array with a null in-CDO data pointer
to the empty array value even when the header's `num` is positive. -/
theorem nullPtr_read_vec_empty_array :
    ∀ (mem : Memory) (es count : Nat),
      FlaggedPtr.readVec (.remote 0) mem es count = some []
      ∧ FlaggedPtr.readVec (.remote 0) (fun _ => none) es count = some []
      ∧ ∀ (paths : Nat → Option String) (fuel : Nat) (prop : PropMeta)
          (base index num : Nat),
          readPropKind prop.castFlags = some .arrayK →
          readU32 mem (base + prop.offsetInternal + index * prop.elementSize + 8) =
            some num →
          readU64 mem (base + prop.offsetInternal + index * prop.elementSize) =
            some 0 →
          readProp paths mem (fuel + 1) prop base index =
            .ok (some (.array [])) := by
  intro mem es count
  refine ⟨rfl, rfl, ?_⟩
  intro paths fuel prop base index num hk hnum hdata
  unfold readProp
  rw [hk]
  simp only [hnum, hdata]
  rfl

/-- C10, witness: a concrete script-array header with `num = 5` and a
null data pointer decodes to the empty array value. -/
theorem nullPtr_read_vec_empty_array_witness :
    FlaggedPtr.readVec (.remote 0) memScript 4 7 = some []
    ∧ readProp (fun _ => none) memScript 1 arrProp 0 0 = .ok (some (.array [])) :=
  ⟨(nullPtr_read_vec_empty_array memScript 4 7).1,
   (nullPtr_read_vec_empty_array memScript 4 7).2.2 (fun _ => none) 0 arrProp
      0 0 5 (by decide) (by decide) (by decide)⟩

/-! ### Association-list lemmas for the snapshot assembly -/

theorem alookup_ainsert_self {α : Type} :
    ∀ (l : List (String × α)) (k : String) (v : α),
      alookup (ainsert l k v) k = some v := by
  intro l
  induction l with
  | nil => intro k v; simp [ainsert, alookup]
  | cons hd tl ih =>
    intro k v
    obtain ⟨k', v'⟩ := hd
    by_cases h : k' = k
    · simp [ainsert, h, alookup]
    · simp [ainsert, h, alookup, ih]

theorem alookup_ainsert_ne {α : Type} :
    ∀ (l : List (String × α)) (k k' : String) (v : α), k ≠ k' →
      alookup (ainsert l k v) k' = alookup l k' := by
  intro l
  induction l with
  | nil => intro k k' v h; simp [ainsert, alookup, h]
  | cons hd tl ih =>
    intro k k' v h
    obtain ⟨k0, v0⟩ := hd
    by_cases h0 : k0 = k
    · subst h0
      simp [ainsert, alookup, h]
    · simp only [ainsert, if_neg h0, alookup]
      by_cases h1 : k0 = k'
      · simp [h1]
      · simp [h1, ih _ _ _ h]

theorem alookup_eq_none {α : Type} :
    ∀ (l : List (String × α)) (k : String), k ∉ l.map Prod.fst →
      alookup l k = none := by
  intro l
  induction l with
  | nil => intro k _; rfl
  | cons hd tl ih =>
    intro k h
    obtain ⟨k', v'⟩ := hd
    simp only [List.map_cons, List.mem_cons] at h
    push_neg at h
    simp [alookup, Ne.symm h.1, ih _ h.2]

theorem mem_keys_ainsert {α : Type} :
    ∀ (l : List (String × α)) (k k' : String) (v : α),
      k' ∈ (ainsert l k v).map Prod.fst → k' = k ∨ k' ∈ l.map Prod.fst := by
  intro l
  induction l with
  | nil =>
    intro k k' v h
    simp only [ainsert, List.map_cons, List.map_nil, List.mem_cons,
      List.not_mem_nil, or_false] at h
    exact .inl h
  | cons hd tl ih =>
    intro k k' v h
    obtain ⟨k0, v0⟩ := hd
    simp only [ainsert] at h
    by_cases h0 : k0 = k
    · rw [if_pos h0] at h
      simp only [List.map_cons, List.mem_cons] at h
      rcases h with h1 | h1
      · exact .inl h1
      · exact .inr (List.mem_cons_of_mem _ h1)
    · rw [if_neg h0] at h
      simp only [List.map_cons, List.mem_cons] at h
      rcases h with h1 | h1
      · exact .inr (h1 ▸ List.mem_cons_self _ _)
      · rcases ih k k' v h1 with h2 | h2
        · exact .inl h2
        · exact .inr (List.mem_cons_of_mem _ h2)

theorem nodup_keys_ainsert {α : Type} :
    ∀ (l : List (String × α)) (k : String) (v : α),
      (l.map Prod.fst).Nodup → ((ainsert l k v).map Prod.fst).Nodup := by
  intro l
  induction l with
  | nil => intro k v _; simp [ainsert]
  | cons hd tl ih =>
    intro k v h
    obtain ⟨k0, v0⟩ := hd
    simp only [List.map_cons, List.nodup_cons] at h
    simp only [ainsert]
    by_cases h0 : k0 = k
    · rw [if_pos h0]
      simp only [List.map_cons, List.nodup_cons]
      exact ⟨h0 ▸ h.1, h.2⟩
    · rw [if_neg h0]
      simp only [List.map_cons, List.nodup_cons]
      refine ⟨?_, ih k v h.2⟩
      intro hmem
      rcases mem_keys_ainsert tl k k0 v hmem with h1 | h1
      · exact h0 h1
      · exact h.1 h1

theorem mem_insertSet_self (p : String) (l : List String) : p ∈ insertSet p l := by
  unfold insertSet
  by_cases h : p ∈ l
  · simp [h]
  · simp [h]

theorem mem_insertSet_of_mem (p q : String) (l : List String) (h : q ∈ l) :
    q ∈ insertSet p l := by
  unfold insertSet
  by_cases hp : p ∈ l
  · simp [hp, h]
  · simp [hp, h]

/-! ### Emission-loop invariants -/

theorem emitLoop_inv :
    ∀ (items : List EmitItem) (objs : List (String × Entry))
      (cm : List (String × List String)),
      (∀ p e, alookup objs p = some e → ∀ o, e.outer = some o →
        ∃ ch, alookup cm o = some ch ∧ p ∈ ch) →
      ∀ p e, alookup (emitLoop objs cm items).1 p = some e →
        ∀ o, e.outer = some o →
          ∃ ch, alookup (emitLoop objs cm items).2 o = some ch ∧ p ∈ ch := by
  intro items
  induction items with
  | nil =>
    intro objs cm h
    simpa [emitLoop] using h
  | cons it rest ih =>
    intro objs cm h
    simp only [emitLoop]
    apply ih
    intro p e hp o ho
    by_cases hpq : it.path = p
    · subst hpq
      rw [alookup_ainsert_self] at hp
      injection hp with hp
      subst hp
      simp only at ho
      rw [ho]
      refine ⟨insertSet it.path ((alookup cm o).getD []), ?_, ?_⟩
      · simp [addChild, alookup_ainsert_self]
      · exact mem_insertSet_self _ _
    · rw [alookup_ainsert_ne _ _ _ _ hpq] at hp
      obtain ⟨ch, hch, hpch⟩ := h p e hp o ho
      cases hout : it.outer with
      | none => exact ⟨ch, hch, hpch⟩
      | some o2 =>
        by_cases ho2 : o2 = o
        · subst ho2
          refine ⟨insertSet it.path ch, ?_, mem_insertSet_of_mem _ _ _ hpch⟩
          simp [addChild, alookup_ainsert_self, hch]
        · refine ⟨ch, ?_, hpch⟩
          unfold addChild
          rw [alookup_ainsert_ne _ _ _ _ ho2]
          exact hch

theorem emitLoop_cm_nodup :
    ∀ (items : List EmitItem) (objs : List (String × Entry))
      (cm : List (String × List String)),
      (cm.map Prod.fst).Nodup → ((emitLoop objs cm items).2.map Prod.fst).Nodup := by
  intro items
  induction items with
  | nil => intro objs cm h; simpa [emitLoop] using h
  | cons it rest ih =>
    intro objs cm h
    simp only [emitLoop]
    apply ih
    cases it.outer with
    | none => exact h
    | some o => exact nodup_keys_ainsert _ _ _ h

theorem emitLoop_objs_nodup :
    ∀ (items : List EmitItem) (objs : List (String × Entry))
      (cm : List (String × List String)),
      (objs.map Prod.fst).Nodup → ((emitLoop objs cm items).1.map Prod.fst).Nodup := by
  intro items
  induction items with
  | nil => intro objs cm h; simpa [emitLoop] using h
  | cons it rest ih =>
    intro objs cm h
    simp only [emitLoop]
    exact ih _ _ (nodup_keys_ainsert _ _ _ h)

theorem emitLoop_provenance :
    ∀ (items : List EmitItem) (objs : List (String × Entry))
      (cm : List (String × List String)) (p : String) (e : Entry),
      alookup (emitLoop objs cm items).1 p = some e →
      (alookup objs p).isSome = true ∨ ∃ it ∈ items, it.path = p := by
  intro items
  induction items with
  | nil =>
    intro objs cm p e h
    simp only [emitLoop] at h
    left
    rw [h]
    rfl
  | cons it rest ih =>
    intro objs cm p e h
    simp only [emitLoop] at h
    rcases ih _ _ p e h with hs | ⟨it2, hmem, hpath⟩
    · by_cases hip : it.path = p
      · exact .inr ⟨it, by simp, hip⟩
      · left
        rwa [alookup_ainsert_ne _ _ _ _ hip] at hs
    · exact .inr ⟨it2, by simp [hmem], hpath⟩

/-! ### Children-assignment behaviour -/

theorem assign_spec :
    ∀ (cm : List (String × List String)) (objs m : List (String × Entry)),
      (cm.map Prod.fst).Nodup → assignChildren objs cm = some m →
      ∀ o : String,
        (∀ ch, alookup cm o = some ch →
          ∃ e0, alookup objs o = some e0 ∧ alookup m o = some ⟨e0.outer, ch⟩)
        ∧ (alookup cm o = none → alookup m o = alookup objs o) := by
  intro cm
  induction cm with
  | nil =>
    intro objs m _ hm o
    simp only [assignChildren, Option.some.injEq] at hm
    subst hm
    constructor
    · intro ch hch
      cases hch
    · intro _
      rfl
  | cons hd tl ih =>
    obtain ⟨o0, ch0⟩ := hd
    intro objs m hnd hm o
    simp only [assignChildren] at hm
    cases he0 : alookup objs o0 with
    | none => rw [he0] at hm; cases hm
    | some e0 =>
      rw [he0] at hm
      simp only [List.map_cons, List.nodup_cons] at hnd
      have IH := ih (ainsert objs o0 ⟨e0.outer, ch0⟩) m hnd.2 hm
      constructor
      · intro ch hch
        by_cases hoo : o0 = o
        · subst hoo
          simp [alookup] at hch
          subst hch
          have htl : alookup tl o0 = none := alookup_eq_none _ _ hnd.1
          have hmo := (IH o0).2 htl
          rw [alookup_ainsert_self] at hmo
          exact ⟨e0, he0, hmo⟩
        · have hch2 : alookup tl o = some ch := by
            simpa [alookup, hoo] using hch
          obtain ⟨e1, he1, hm1⟩ := (IH o).1 ch hch2
          rw [alookup_ainsert_ne _ _ _ _ hoo] at he1
          exact ⟨e1, he1, hm1⟩
      · intro hnone
        have hsplit : o0 ≠ o ∧ alookup tl o = none := by
          by_cases hoo : o0 = o
          · subst hoo; simp [alookup] at hnone
          · exact ⟨hoo, by simpa [alookup, hoo] using hnone⟩
        rw [(IH o).2 hsplit.2, alookup_ainsert_ne _ _ _ _ hsplit.1]

theorem assign_nodup :
    ∀ (cm : List (String × List String)) (objs m : List (String × Entry)),
      (objs.map Prod.fst).Nodup → assignChildren objs cm = some m →
      (m.map Prod.fst).Nodup := by
  intro cm
  induction cm with
  | nil =>
    intro objs m h hm
    simp only [assignChildren, Option.some.injEq] at hm
    subst hm
    exact h
  | cons hd tl ih =>
    obtain ⟨o0, ch0⟩ := hd
    intro objs m h hm
    simp only [assignChildren] at hm
    cases he0 : alookup objs o0 with
    | none => rw [he0] at hm; cases hm
    | some e0 =>
      rw [he0] at hm
      exact ih _ m (nodup_keys_ainsert _ _ _ h) hm

/-- C7: on every successful dump, every emitted entry whose `outer` is
set has a snapshot entry at that outer path, and that entry's `children`
set contains the entry's own path. -/
theorem dump_outer_children_invariant :
    ∀ (items : List EmitItem) (m : List (String × Entry)),
      dumpAssemble items = some m →
      ∀ (p : String) (e : Entry) (o : String),
        alookup m p = some e → e.outer = some o →
        ∃ e2, alookup m o = some e2 ∧ p ∈ e2.children := by
  intro items m hm p e o hp ho
  have hm2 : assignChildren (emitLoop [] [] items).1 (emitLoop [] [] items).2 =
      some m := hm
  have hndcm : ((emitLoop [] [] items).2.map Prod.fst).Nodup :=
    emitLoop_cm_nodup items [] [] (by simp)
  have hinv := emitLoop_inv items [] []
    (by intro p e hpe; cases hpe)
  have hassign := assign_spec _ _ m hndcm hm2
  have hobjs : ∃ e0, alookup (emitLoop [] [] items).1 p = some e0 ∧
      e0.outer = e.outer := by
    cases hcm : alookup (emitLoop [] [] items).2 p with
    | some ch =>
      obtain ⟨e0, he0, hm0⟩ := (hassign p).1 ch hcm
      rw [hp] at hm0
      injection hm0 with hm0
      exact ⟨e0, he0, by rw [hm0]⟩
    | none =>
      have heq := (hassign p).2 hcm
      rw [hp] at heq
      exact ⟨e, heq.symm, rfl⟩
  obtain ⟨e0, he0, houter⟩ := hobjs
  obtain ⟨ch, hch, hpch⟩ := hinv p e0 he0 o (by rw [houter, ho])
  obtain ⟨e1, he1, hm1⟩ := (hassign o).1 ch hch
  exact ⟨⟨e1.outer, ch⟩, hm1, hpch⟩

/-- C7, witness: a package `/Script/X` with one class `/Script/X.C`. -/
theorem dump_outer_children_invariant_witness :
    ∃ e2, alookup [("/Script/X", (⟨none, ["/Script/X.C"]⟩ : Entry)),
        ("/Script/X.C", (⟨some "/Script/X", []⟩ : Entry))] "/Script/X" = some e2
      ∧ "/Script/X.C" ∈ e2.children :=
  dump_outer_children_invariant pkgItems
    [("/Script/X", ⟨none, ["/Script/X.C"]⟩),
     ("/Script/X.C", ⟨some "/Script/X", []⟩)]
    (by decide) "/Script/X.C" ⟨some "/Script/X", []⟩ "/Script/X" (by decide) rfl

/-- C9, counterexample: two distinct enumerated objects (slots 0 and 1)
emit the same qualified path `/Script/A`; the dump still succeeds, and
the two objects collapse into a single snapshot entry, so path → entry
is not a bijection onto the enumerated objects. -/
theorem dump_duplicate_path_cex :
    dumpAssemble dupItems = some [("/Script/A", ⟨none, []⟩)]
    ∧ dupItems.length = 2
    ∧ (dupItems[0]?).map EmitItem.path = some "/Script/A"
    ∧ (dupItems[1]?).map EmitItem.path = some "/Script/A"
    ∧ (0 : Nat) ≠ 1 := by
  decide

/-- C9, amended: the snapshot's path → entry mapping is a function —
its keys are distinct, and every entry's path is the path of at least
one enumerated object — but injectivity of object → path is not
enforced: distinct enumerated objects sharing a path are silently
collapsed into one entry. -/
theorem dump_path_entry_functional :
    ∀ (items : List EmitItem) (m : List (String × Entry)),
      dumpAssemble items = some m →
      (m.map Prod.fst).Nodup
      ∧ ∀ p e, alookup m p = some e → ∃ it ∈ items, it.path = p := by
  intro items m hm
  have hm2 : assignChildren (emitLoop [] [] items).1 (emitLoop [] [] items).2 =
      some m := hm
  have hndcm : ((emitLoop [] [] items).2.map Prod.fst).Nodup :=
    emitLoop_cm_nodup items [] [] (by simp)
  have hassign := assign_spec _ _ m hndcm hm2
  constructor
  · exact assign_nodup _ _ m (emitLoop_objs_nodup items [] [] (by simp)) hm2
  · intro p e hp
    have hobjs : (alookup (emitLoop [] [] items).1 p).isSome = true := by
      cases hcm : alookup (emitLoop [] [] items).2 p with
      | some ch =>
        obtain ⟨e0, he0, _⟩ := (hassign p).1 ch hcm
        rw [he0]; rfl
      | none =>
        have heq := (hassign p).2 hcm
        rw [hp] at heq
        rw [← heq]; rfl
    obtain ⟨e0, he0⟩ := Option.isSome_iff_exists.mp hobjs
    rcases emitLoop_provenance items [] [] p e0 he0 with hbase | hgood
    · cases hbase
    · exact hgood

/-- C9, witness for the amended theorem: the duplicate-path dump. -/
theorem dump_path_entry_functional_witness :
    (([("/Script/A", (⟨none, []⟩ : Entry))].map Prod.fst).Nodup
     ∧ ∀ p e, alookup [("/Script/A", (⟨none, []⟩ : Entry))] p = some e →
        ∃ it ∈ dupItems, it.path = p) :=
  dump_path_entry_functional dupItems [("/Script/A", ⟨none, []⟩)] (by decide)

/-! ### Page-cache lemmas -/

theorem plookup_pinsert_self :
    ∀ (l : PageMap) (k : Nat) (v : List Nat), plookup (pinsert l k v) k = some v := by
  intro l
  induction l with
  | nil => intro k v; simp [pinsert, plookup]
  | cons hd tl ih =>
    intro k v
    obtain ⟨k0, v0⟩ := hd
    by_cases h : k0 = k
    · simp [pinsert, h, plookup]
    · simp [pinsert, h, plookup, ih]

theorem plookup_pinsert_ne :
    ∀ (l : PageMap) (k k' : Nat) (v : List Nat), k ≠ k' →
      plookup (pinsert l k v) k' = plookup l k' := by
  intro l
  induction l with
  | nil => intro k k' v h; simp [pinsert, plookup, h]
  | cons hd tl ih =>
    intro k k' v h
    obtain ⟨k0, v0⟩ := hd
    by_cases h0 : k0 = k
    · subst h0
      simp [pinsert, plookup, h]
    · simp only [pinsert, if_neg h0, plookup]
      by_cases h1 : k0 = k'
      · simp [h1]
      · simp [h1, ih _ _ _ h]

theorem readBytes_length (mem : Memory) :
    ∀ (n a : Nat) (l : List Nat), readBytes mem a n = some l → l.length = n := by
  intro n
  induction n with
  | zero =>
    intro a l h
    simp only [readBytes, Option.some.injEq] at h
    simp [← h]
  | succ m ih =>
    intro a l h
    simp only [readBytes, bind, Option.bind] at h
    cases hb : mem a with
    | none => rw [hb] at h; cases h
    | some b =>
      rw [hb] at h
      cases hr : readBytes mem (a + 1) m with
      | none => rw [hr] at h; cases h
      | some rest =>
        rw [hr] at h
        simp only [pure, Option.some.injEq] at h
        subst h
        simp [ih (a + 1) rest hr]

theorem readBytes_split (mem : Memory) :
    ∀ (m n a : Nat),
      readBytes mem a (m + n) =
        (readBytes mem a m).bind fun l1 =>
          (readBytes mem (a + m) n).map fun l2 => l1 ++ l2 := by
  intro m
  induction m with
  | zero =>
    intro n a
    rw [Nat.zero_add]
    simp only [readBytes, Option.some_bind, Nat.add_zero]
    cases h : readBytes mem a n <;> simp [h]
  | succ m ih =>
    intro n a
    have harith : m + 1 + n = (m + n) + 1 := by omega
    rw [harith]
    simp only [readBytes, bind]
    cases hb : mem a with
    | none => simp [Option.bind]
    | some b =>
      simp only [Option.some_bind]
      rw [ih n (a + 1)]
      have harith2 : a + (m + 1) = a + 1 + m := by omega
      rw [harith2]
      cases readBytes mem (a + 1) m with
      | none => simp
      | some l1 =>
        cases readBytes mem (a + 1 + m) n with
        | none => simp
        | some l2 => simp [pure]

theorem readBytes_slice (mem : Memory) (a n : Nat) (l : List Nat)
    (h : readBytes mem a n = some l) :
    ∀ (i j : Nat), i + j ≤ n →
      readBytes mem (a + i) j = some ((l.drop i).take j) := by
  intro i j hij
  have hsplit1 := readBytes_split mem i (n - i) a
  have hn : i + (n - i) = n := by omega
  rw [hn, h] at hsplit1
  cases h1 : readBytes mem a i with
  | none => rw [h1] at hsplit1; cases hsplit1
  | some l1 =>
    rw [h1] at hsplit1
    simp only [Option.some_bind] at hsplit1
    cases h2 : readBytes mem (a + i) (n - i) with
    | none => rw [h2] at hsplit1; cases hsplit1
    | some l2 =>
      rw [h2] at hsplit1
      simp only [Option.map_some'] at hsplit1
      injection hsplit1 with hsplit1
      have hl1 : l1.length = i := readBytes_length mem i a l1 h1
      have hdrop : l.drop i = l2 := by
        rw [hsplit1, ← hl1, List.drop_left]
      have hsplit2 := readBytes_split mem j (n - i - j) (a + i)
      have hnij : j + (n - i - j) = n - i := by omega
      rw [hnij, h2] at hsplit2
      cases h3 : readBytes mem (a + i) j with
      | none => rw [h3] at hsplit2; cases hsplit2
      | some l3 =>
        rw [h3] at hsplit2
        simp only [Option.some_bind] at hsplit2
        cases h4 : readBytes mem (a + i + j) (n - i - j) with
        | none => rw [h4] at hsplit2; cases hsplit2
        | some l4 =>
          rw [h4] at hsplit2
          simp only [Option.map_some'] at hsplit2
          injection hsplit2 with hsplit2
          have hl3 : l3.length = j := readBytes_length mem j (a + i) l3 h3
          rw [hdrop, hsplit2, ← hl3, List.take_left]

/-- One unfolding of the `MemCache::read_buf` loop. -/
theorem cacheReadAux_succ (mem : Memory) (f : Nat) (pages : PageMap)
    (pos r : Nat) :
    cacheReadAux mem (f + 1) pages pos (r + 1) =
      (match plookup pages (pos / PAGE_SIZE * PAGE_SIZE) with
      | some page =>
        (cacheReadAux mem f pages
            (pos + min (r + 1) (PAGE_SIZE - (pos - pos / PAGE_SIZE * PAGE_SIZE)))
            (r + 1 - min (r + 1) (PAGE_SIZE - (pos - pos / PAGE_SIZE * PAGE_SIZE)))).bind
          fun x =>
            some (((page.drop (pos - pos / PAGE_SIZE * PAGE_SIZE)).take
              (min (r + 1) (PAGE_SIZE - (pos - pos / PAGE_SIZE * PAGE_SIZE)))) ++ x.1,
              x.2)
      | none =>
        (rawReadBuf mem (pos / PAGE_SIZE * PAGE_SIZE) PAGE_SIZE).bind fun page =>
          (cacheReadAux mem f (pinsert pages (pos / PAGE_SIZE * PAGE_SIZE) page)
              (pos + min (r + 1) (PAGE_SIZE - (pos - pos / PAGE_SIZE * PAGE_SIZE)))
              (r + 1 - min (r + 1) (PAGE_SIZE - (pos - pos / PAGE_SIZE * PAGE_SIZE)))).bind
            fun x =>
              some (((page.drop (pos - pos / PAGE_SIZE * PAGE_SIZE)).take
                (min (r + 1) (PAGE_SIZE - (pos - pos / PAGE_SIZE * PAGE_SIZE)))) ++ x.1,
                x.2)) := by
  rfl

/-- C8, amended: when a coherent cache serves a request all of whose
touched 4096-byte pages are fully readable, the cached read succeeds
and returns exactly the raw reader's bytes (and the cache stays
coherent); the original claim fails when a touched page is only
partially readable, because the cache fetches whole pages. -/
theorem cacheRead_agrees_raw_on_readable :
    ∀ (mem : Memory) (fuel : Nat) (pages : PageMap) (pos len : Nat),
      len ≤ fuel → coherent mem pages →
      (∀ a, pos ≤ a → a < pos + len →
        (rawReadBuf mem (a / PAGE_SIZE * PAGE_SIZE) PAGE_SIZE).isSome = true) →
      ∃ bs pages2, rawReadBuf mem pos len = some bs
        ∧ cacheReadAux mem fuel pages pos len = some (bs, pages2)
        ∧ coherent mem pages2 := by
  intro mem fuel
  induction fuel with
  | zero =>
    intro pages pos len hlen hcoh _
    have h0 : len = 0 := Nat.le_zero.mp hlen
    subst h0
    exact ⟨[], pages, rfl, rfl, hcoh⟩
  | succ f ih =>
    intro pages pos len hlen hcoh hread
    cases len with
    | zero => exact ⟨[], pages, rfl, rfl, hcoh⟩
    | succ r =>
      have hP : PAGE_SIZE = 4096 := rfl
      have hdm := Nat.mod_add_div' pos PAGE_SIZE
      have hmodlt : pos % PAGE_SIZE < PAGE_SIZE := Nat.mod_lt pos (by norm_num [PAGE_SIZE])
      have hple : pos / PAGE_SIZE * PAGE_SIZE ≤ pos := Nat.div_mul_le_self pos PAGE_SIZE
      have hofflt : pos - pos / PAGE_SIZE * PAGE_SIZE < PAGE_SIZE := by omega
      have htc1 : 1 ≤ min (r + 1) (PAGE_SIZE - (pos - pos / PAGE_SIZE * PAGE_SIZE)) := by
        omega
      have htcr : min (r + 1) (PAGE_SIZE - (pos - pos / PAGE_SIZE * PAGE_SIZE)) ≤ r + 1 := by
        omega
      have htcpage : (pos - pos / PAGE_SIZE * PAGE_SIZE) +
          min (r + 1) (PAGE_SIZE - (pos - pos / PAGE_SIZE * PAGE_SIZE)) ≤ PAGE_SIZE := by
        omega
      have hp0 := hread pos (Nat.le_refl _) (by omega)
      obtain ⟨page, hpage⟩ := Option.isSome_iff_exists.mp hp0
      have hslice := readBytes_slice mem (pos / PAGE_SIZE * PAGE_SIZE) PAGE_SIZE page
        hpage (pos - pos / PAGE_SIZE * PAGE_SIZE)
        (min (r + 1) (PAGE_SIZE - (pos - pos / PAGE_SIZE * PAGE_SIZE))) htcpage
      have hpp : pos / PAGE_SIZE * PAGE_SIZE + (pos - pos / PAGE_SIZE * PAGE_SIZE) = pos := by
        omega
      rw [hpp] at hslice
      have hsub : ∀ a,
          pos + min (r + 1) (PAGE_SIZE - (pos - pos / PAGE_SIZE * PAGE_SIZE)) ≤ a →
          a < pos + min (r + 1) (PAGE_SIZE - (pos - pos / PAGE_SIZE * PAGE_SIZE)) +
            (r + 1 - min (r + 1) (PAGE_SIZE - (pos - pos / PAGE_SIZE * PAGE_SIZE))) →
          (rawReadBuf mem (a / PAGE_SIZE * PAGE_SIZE) PAGE_SIZE).isSome = true := by
        intro a h1 h2
        exact hread a (by omega) (by omega)
      have hsplitraw := readBytes_split mem
        (min (r + 1) (PAGE_SIZE - (pos - pos / PAGE_SIZE * PAGE_SIZE)))
        (r + 1 - min (r + 1) (PAGE_SIZE - (pos - pos / PAGE_SIZE * PAGE_SIZE))) pos
      have harith : min (r + 1) (PAGE_SIZE - (pos - pos / PAGE_SIZE * PAGE_SIZE)) +
          (r + 1 - min (r + 1) (PAGE_SIZE - (pos - pos / PAGE_SIZE * PAGE_SIZE))) = r + 1 := by
        omega
      rw [harith] at hsplitraw
      cases hlk : plookup pages (pos / PAGE_SIZE * PAGE_SIZE) with
      | some cached =>
        have hcached : rawReadBuf mem (pos / PAGE_SIZE * PAGE_SIZE) PAGE_SIZE =
            some cached := hcoh _ _ hlk
        have hpageeq : cached = page := by
          rw [hcached] at hpage
          injection hpage
        subst hpageeq
        obtain ⟨bs2, pages2, hraw2, hcache2, hcoh2⟩ := ih pages
          (pos + min (r + 1) (PAGE_SIZE - (pos - pos / PAGE_SIZE * PAGE_SIZE)))
          (r + 1 - min (r + 1) (PAGE_SIZE - (pos - pos / PAGE_SIZE * PAGE_SIZE)))
          (by omega) hcoh hsub
        refine ⟨(cached.drop (pos - pos / PAGE_SIZE * PAGE_SIZE)).take
            (min (r + 1) (PAGE_SIZE - (pos - pos / PAGE_SIZE * PAGE_SIZE))) ++ bs2,
          pages2, ?_, ?_, hcoh2⟩
        · unfold rawReadBuf at hraw2 ⊢
          rw [hsplitraw, hslice]
          simp only [Option.some_bind]
          rw [hraw2]
          rfl
        · rw [cacheReadAux_succ, hlk, hcache2]
          rfl
      | none =>
        have hcoh1 : coherent mem
            (pinsert pages (pos / PAGE_SIZE * PAGE_SIZE) page) := by
          intro p data hld
          by_cases hpq : p = pos / PAGE_SIZE * PAGE_SIZE
          · subst hpq
            rw [plookup_pinsert_self] at hld
            injection hld with hld
            rw [← hld]
            exact hpage
          · rw [plookup_pinsert_ne _ _ _ _ (fun hx => hpq hx.symm)] at hld
            exact hcoh _ _ hld
        obtain ⟨bs2, pages2, hraw2, hcache2, hcoh2⟩ := ih
          (pinsert pages (pos / PAGE_SIZE * PAGE_SIZE) page)
          (pos + min (r + 1) (PAGE_SIZE - (pos - pos / PAGE_SIZE * PAGE_SIZE)))
          (r + 1 - min (r + 1) (PAGE_SIZE - (pos - pos / PAGE_SIZE * PAGE_SIZE)))
          (by omega) hcoh1 hsub
        refine ⟨(page.drop (pos - pos / PAGE_SIZE * PAGE_SIZE)).take
            (min (r + 1) (PAGE_SIZE - (pos - pos / PAGE_SIZE * PAGE_SIZE))) ++ bs2,
          pages2, ?_, ?_, hcoh2⟩
        · unfold rawReadBuf at hraw2 ⊢
          rw [hsplitraw, hslice]
          simp only [Option.some_bind]
          rw [hraw2]
          rfl
        · rw [cacheReadAux_succ, hlk, hpage]
          simp only [Option.some_bind]
          rw [hcache2]
          rfl

/-- C8, counterexample: on a target readable only on bytes 0–3, the raw
reader serves a 4-byte request at address 0, but the page cache fails
(it must fetch the whole 4096-byte page), so cached reads are not
always byte-identical to raw reads. -/
theorem cacheRead_not_raw_equal_cex :
    rawReadBuf memPart 0 4 = some [7, 7, 7, 7]
    ∧ cacheReadBuf memPart [] 0 4 = none := by
  decide

theorem readBytes_total_isSome :
    ∀ (n a : Nat), (readBytes memTotal a n).isSome = true := by
  intro n
  induction n with
  | zero => intro a; rfl
  | succ m ih =>
    intro a
    have := ih (a + 1)
    cases hr : readBytes memTotal (a + 1) m with
    | none => rw [hr] at this; cases this
    | some rest => simp [readBytes, memTotal, hr]

/-- C8, witness: a 4-byte request at 4094 crossing the page boundary on
a fully readable target. -/
theorem cacheRead_agrees_raw_on_readable_witness :
    ∃ bs pages2, rawReadBuf memTotal 4094 4 = some bs
      ∧ cacheReadAux memTotal 4 [] 4094 4 = some (bs, pages2)
      ∧ coherent memTotal pages2 :=
  cacheRead_agrees_raw_on_readable memTotal 4 [] 4094 4 (by decide)
    (by intro p data h; cases h)
    (by intro a _ _; exact readBytes_total_isSome PAGE_SIZE _)

end Meatloaf
